import Mathlib

/-!
Shallow embedding of the batch-upload session controller of the Qubo
frontend (`src/frontend/src/components/FileUploaderDialog.jsx`), the
component realising the spec's SelectionStore, Validator, UploadSession,
TransferEncoder and SubmissionClient.  The selection state is the React
`files` array (a list of file references), the in-flight flag is
`isUploading`, and the network exchange is modelled by passing the
resolved fetch result to the handler explicitly.
-/

/-- A file reference as the JS code sees it: `name`, `size` (bytes,
non-negative), `lastModified` (ms timestamp, non-negative) and the
declared MIME `type` string (possibly empty). -/
structure FileRef where
  name : String
  size : Nat
  lastModified : Nat
  type : String
deriving DecidableEq, Repr

/-- The configured accepted MIME type: `const accept = "application/pdf"`. -/
def accept : String := "application/pdf"

/-- JS `String.prototype.toLowerCase`: lower-case every character. -/
def lowerStr (s : String) : String := ⟨s.data.map Char.toLower⟩

/-- JS `String.prototype.endsWith`: suffix test on the character sequence. -/
def endsWithStr (s suffix : String) : Bool := suffix.data.isSuffixOf s.data

/-- The validator of `addFiles` (FileUploaderDialog.jsx line 34):
`f.type === accept || f.name.toLowerCase().endsWith(".pdf")`. -/
def isPdf (f : FileRef) : Bool :=
  f.type == accept || endsWithStr (lowerStr f.name) ".pdf"

/-- Case-insensitive suffix test, stated from the spec's words
("its name ends with the configured accepted extension, case-insensitively")
to compare against the code's validator. -/
def endsWithCI (s suffix : String) : Bool :=
  endsWithStr (lowerStr s) (lowerStr suffix)

/-- The identity key of a file reference, exactly the JS template string
`` `${f.name}-${f.size}-${f.lastModified}` `` (lines 39 and 41). -/
def identKey (f : FileRef) : String :=
  f.name ++ "-" ++ toString f.size ++ "-" ++ toString f.lastModified

/-- The JS `Map` from identity keys to file references is modelled as an
association list in insertion order, matching `Map`'s iteration order. -/
abbrev FMap := List (String × FileRef)

/-- JS `map.has(k)`. -/
def mapHas (m : FMap) (k : String) : Bool :=
  m.any (fun p => p.1 == k)

/-- JS `map.set(k, v)`: on a present key the value is replaced in place
(the entry keeps its position), on an absent key the pair is appended. -/
def mapSet (m : FMap) (k : String) (v : FileRef) : FMap :=
  if mapHas m k then m.map (fun p => if p.1 == k then (p.1, v) else p)
  else m ++ [(k, v)]

/-- Line 39, `new Map(prev.map((p) => [key(p), p]))`: the `Map`
constructor `set`s each pair in order. -/
def buildMap (prev : List FileRef) : FMap :=
  prev.foldl (fun m p => mapSet m (identKey p) p) []

/-- The `for` loop of lines 40-43: insert each filtered file whose key is
not yet present. -/
def insertNewKeys (m : FMap) (fs : List FileRef) : FMap :=
  fs.foldl (fun m f => if mapHas m (identKey f) then m else mapSet m (identKey f) f) m

/-- Function `addFiles` (lines 30-46): empty input is a no-op; otherwise
filter by the validator, merge into the key map built from the previous
selection, and return `Array.from(map.values())`. -/
def addFiles (prev fileList : List FileRef) : List FileRef :=
  if fileList.length = 0 then prev
  else (insertNewKeys (buildMap prev) (fileList.filter isPdf)).map (fun p => p.2)

/-- Function `removeFile` (line 56): `prev.filter((_, i) => i !== idx)`. -/
def removeFile (prev : List FileRef) (idx : Nat) : List FileRef :=
  (prev.enum.filter (fun p => p.1 != idx)).map (fun p => p.2)

/-- Memo `totalSize` (line 80): `files.reduce((acc, f) => acc + f.size, 0)`. -/
def totalSize (files : List FileRef) : Nat :=
  files.foldl (fun acc f => acc + f.size) 0

/-- The multipart encoding of lines 62-63: a fresh `FormData`, then
`files.forEach((f) => formData.append("files", f))`; a `FormData` is its
ordered list of (field name, value) parts. -/
def encodeFormData (files : List FileRef) : List (String × FileRef) :=
  files.foldl (fun fd f => fd ++ [("files", f)]) []

/-- An opaque parsed-JSON payload: either the JSON `null` produced when the
body is missing or malformed, or some parsed value. -/
inductive Json where
  | null
  | value (s : String)
deriving DecidableEq, Repr

/-- A resolved HTTP response: its status code and, when the body is present
and well-formed JSON, the parsed body (`none` models a missing or
malformed body, on which `res.json()` rejects). -/
structure HttpResponse where
  status : Nat
  body : Option Json
deriving DecidableEq, Repr

/-- JS `res.ok`: the status is in the success range 200-299. -/
def HttpResponse.ok (r : HttpResponse) : Bool :=
  200 ≤ r.status && r.status ≤ 299

/-- Function `safeJson` (lines 183-185): return the parsed body, or null
when awaiting `res.json()` throws. -/
def safeJson (r : HttpResponse) : Json :=
  match r.body with
  | some j => j
  | none => Json.null

/-- The resolution of the awaited `fetch`: either a response, or a
network-level rejection carrying an error message. -/
inductive FetchResult where
  | fetched (r : HttpResponse)
  | netError (msg : String)
deriving DecidableEq, Repr

/-- The session state the handler reads and writes: the `files` selection
and the `isUploading` flag (`Uploading` iff true, `hasSelection` iff
`files` nonempty). -/
structure Session where
  files : List FileRef
  isUploading : Bool
deriving DecidableEq, Repr

/-- The observable result of one `handleSendAll` invocation: the guard
returned without a request, or the success path ran (success alert,
`onUpload(data)`, selection cleared, dialog closed), or the catch path ran
(error alert carrying the message). -/
inductive SendResult where
  | noRequest
  | uploaded (data : Json)
  | uploadError (msg : String)
deriving DecidableEq, Repr

/-- The synchronous prefix of `handleSendAll` (lines 59-65): the guard
`if (files.length === 0 || isUploading) return;`, then
`setIsUploading(true)` and the dispatch of the POST.  The boolean records
whether a network request was issued. -/
def submitStart (s : Session) : Session × Bool :=
  if s.files.length = 0 || s.isUploading then (s, false)
  else ({ s with isUploading := true }, true)

/-- The whole of `handleSendAll` (lines 59-78), with the awaited fetch
resolution passed in: guard, POST, `throw` on `!res.ok` with the message
`Upload failed with status N`, success path parsing via `safeJson` and
clearing the selection, catch path alerting the error message, and the
`finally` resetting `isUploading`. -/
def handleSendAll (s : Session) (net : FetchResult) : Session × SendResult :=
  if s.files.length = 0 || s.isUploading then (s, SendResult.noRequest)
  else
    match net with
    | FetchResult.netError msg =>
        ({ s with isUploading := false }, SendResult.uploadError msg)
    | FetchResult.fetched r =>
        if r.ok then
          ({ files := [], isUploading := false }, SendResult.uploaded (safeJson r))
        else
          ({ s with isUploading := false },
            SendResult.uploadError ("Upload failed with status " ++ toString r.status))

/-! Helper lemmas about the key map and the selection operations. -/

/-- The keys of the map, in order. -/
def mapKeys (m : FMap) : List String := m.map (fun p => p.1)

/-- Every entry of the map pairs a value with its own identity key. -/
def goodEntries (m : FMap) : Prop := ∀ p ∈ m, p.1 = identKey p.2

lemma mapHas_iff {m : FMap} {k : String} : mapHas m k = true ↔ k ∈ mapKeys m := by
  simp [mapHas, mapKeys, List.any_eq_true]

lemma mapHas_eq_false {m : FMap} {k : String} : mapHas m k = false ↔ k ∉ mapKeys m := by
  rw [← Bool.not_eq_true, not_iff_not, mapHas_iff]

lemma mapSet_of_not_has {m : FMap} {k : String} (v : FileRef)
    (h : mapHas m k = false) : mapSet m k v = m ++ [(k, v)] := by
  simp [mapSet, h]

lemma mapKeys_append (m n : FMap) : mapKeys (m ++ n) = mapKeys m ++ mapKeys n := by
  simp [mapKeys]

lemma mapKeys_mapSet (m : FMap) (k : String) (v : FileRef) :
    mapKeys (mapSet m k v) = if mapHas m k then mapKeys m else mapKeys m ++ [k] := by
  unfold mapSet
  split
  · simp only [mapKeys, List.map_map]
    apply List.map_congr_left
    intro p _
    by_cases h : p.1 = k <;> simp [h]
  · simp [mapKeys]

lemma nodup_mapKeys_mapSet {m : FMap} (k : String) (v : FileRef)
    (h : (mapKeys m).Nodup) : (mapKeys (mapSet m k v)).Nodup := by
  rw [mapKeys_mapSet]
  split
  · exact h
  · rename_i hk
    have : k ∉ mapKeys m := mapHas_eq_false.mp (Bool.of_not_eq_true hk)
    simp [List.nodup_append, h, this]

lemma goodEntries_mapSet {m : FMap} {v : FileRef}
    (h : goodEntries m) : goodEntries (mapSet m (identKey v) v) := by
  unfold mapSet
  split
  · intro p hp
    rcases List.mem_map.mp hp with ⟨q, hq, rfl⟩
    by_cases hqk : q.1 = identKey v
    · simp [hqk]
    · have hbeq : (q.1 == identKey v) = false := by simp [hqk]
      simp only [hbeq, Bool.false_eq_true, if_false]
      exact h q hq
  · intro p hp
    rcases List.mem_append.mp hp with hp | hp
    · exact h p hp
    · simp only [List.mem_singleton] at hp
      subst hp
      rfl

lemma goodEntries_buildMap_aux (prev : List FileRef) (m : FMap) (h : goodEntries m) :
    goodEntries (prev.foldl (fun m p => mapSet m (identKey p) p) m) := by
  induction prev generalizing m with
  | nil => exact h
  | cons p rest ih =>
      simp only [List.foldl_cons]
      exact ih _ (goodEntries_mapSet h)

lemma goodEntries_buildMap (prev : List FileRef) : goodEntries (buildMap prev) :=
  goodEntries_buildMap_aux prev [] (by intro p hp; cases hp)

lemma nodup_keys_buildMap_aux (prev : List FileRef) (m : FMap)
    (h : (mapKeys m).Nodup) :
    (mapKeys (prev.foldl (fun m p => mapSet m (identKey p) p) m)).Nodup := by
  induction prev generalizing m with
  | nil => exact h
  | cons p rest ih =>
      simp only [List.foldl_cons]
      exact ih _ (nodup_mapKeys_mapSet _ _ h)

lemma nodup_keys_buildMap (prev : List FileRef) : (mapKeys (buildMap prev)).Nodup :=
  nodup_keys_buildMap_aux prev [] (by simp [mapKeys])

lemma goodEntries_insertNewKeys (fs : List FileRef) (m : FMap) (h : goodEntries m) :
    goodEntries (insertNewKeys m fs) := by
  induction fs generalizing m with
  | nil => exact h
  | cons f rest ih =>
      simp only [insertNewKeys, List.foldl_cons]
      by_cases hf : mapHas m (identKey f) = true
      · simp only [hf, if_true]
        exact ih m h
      · simp only [Bool.of_not_eq_true hf, Bool.false_eq_true, if_false]
        exact ih _ (goodEntries_mapSet h)

lemma nodup_keys_insertNewKeys (fs : List FileRef) (m : FMap)
    (h : (mapKeys m).Nodup) : (mapKeys (insertNewKeys m fs)).Nodup := by
  induction fs generalizing m with
  | nil => exact h
  | cons f rest ih =>
      simp only [insertNewKeys, List.foldl_cons]
      by_cases hf : mapHas m (identKey f) = true
      · simp only [hf, if_true]
        exact ih m h
      · simp only [Bool.of_not_eq_true hf, Bool.false_eq_true, if_false]
        exact ih _ (nodup_mapKeys_mapSet _ _ h)

lemma insertNewKeys_spec (fs : List FileRef) (m : FMap) :
    ∃ ext : FMap, insertNewKeys m fs = m ++ ext ∧
      ∀ p ∈ ext, p.1 = identKey p.2 ∧ p.2 ∈ fs ∧ p.1 ∉ mapKeys m := by
  induction fs generalizing m with
  | nil => exact ⟨[], by simp [insertNewKeys], by intro p hp; cases hp⟩
  | cons f rest ih =>
      simp only [insertNewKeys, List.foldl_cons]
      by_cases hf : mapHas m (identKey f) = true
      · simp only [hf, if_true]
        rcases ih m with ⟨ext, heq, hprop⟩
        refine ⟨ext, heq, fun p hp => ?_⟩
        rcases hprop p hp with ⟨h1, h2, h3⟩
        exact ⟨h1, List.mem_cons_of_mem _ h2, h3⟩
      · have hf' : mapHas m (identKey f) = false := Bool.of_not_eq_true hf
        simp only [hf', Bool.false_eq_true, if_false,
          mapSet_of_not_has f hf']
        rcases ih (m ++ [(identKey f, f)]) with ⟨ext, heq, hprop⟩
        refine ⟨(identKey f, f) :: ext, by simpa using heq, fun p hp => ?_⟩
        rcases List.mem_cons.mp hp with rfl | hp
        · exact ⟨rfl, List.mem_cons_self _ _, mapHas_eq_false.mp hf'⟩
        · rcases hprop p hp with ⟨h1, h2, h3⟩
          rw [mapKeys_append] at h3
          simp only [List.mem_append, not_or] at h3
          exact ⟨h1, List.mem_cons_of_mem _ h2, h3.1⟩

lemma insertNewKeys_of_mem (fs : List FileRef) (m : FMap)
    (h : ∀ f ∈ fs, mapHas m (identKey f) = true) :
    insertNewKeys m fs = m := by
  induction fs generalizing m with
  | nil => rfl
  | cons f rest ih =>
      simp only [insertNewKeys, List.foldl_cons, h f (List.mem_cons_self _ _), if_true]
      exact ih m (fun g hg => h g (List.mem_cons_of_mem _ hg))

lemma mem_keys_insertNewKeys (fs : List FileRef) (m : FMap) :
    ∀ f ∈ fs, identKey f ∈ mapKeys (insertNewKeys m fs) := by
  induction fs generalizing m with
  | nil => intro f hf; cases hf
  | cons g rest ih =>
      intro f hf
      simp only [insertNewKeys, List.foldl_cons]
      by_cases hg : mapHas m (identKey g) = true
      · simp only [hg, if_true]
        rcases List.mem_cons.mp hf with rfl | hf
        · rcases insertNewKeys_spec rest m with ⟨ext, heq, -⟩
          rw [show rest.foldl
              (fun m f => if mapHas m (identKey f) then m else mapSet m (identKey f) f) m
              = insertNewKeys m rest from rfl, heq, mapKeys_append]
          exact List.mem_append_left _ (mapHas_iff.mp hg)
        · exact ih m f hf
      · have hg' : mapHas m (identKey g) = false := Bool.of_not_eq_true hg
        simp only [hg', Bool.false_eq_true, if_false, mapSet_of_not_has g hg']
        rcases List.mem_cons.mp hf with rfl | hf
        · rcases insertNewKeys_spec rest (m ++ [(identKey f, f)]) with ⟨ext, heq, -⟩
          rw [show rest.foldl
              (fun m f => if mapHas m (identKey f) then m else mapSet m (identKey f) f)
              (m ++ [(identKey f, f)]) = insertNewKeys (m ++ [(identKey f, f)]) rest from rfl,
            heq, mapKeys_append, mapKeys_append]
          refine List.mem_append_left _ (List.mem_append_right _ ?_)
          simp [mapKeys]
        · exact ih _ f hf

lemma mapKeys_eq_of_good {m : FMap} (h : goodEntries m) :
    mapKeys m = (m.map (fun p => p.2)).map identKey := by
  simp only [mapKeys, List.map_map]
  exact List.map_congr_left (fun p hp => h p hp)

lemma buildMap_foldl_eq (l : List FileRef) (m : FMap)
    (h : (mapKeys m ++ l.map identKey).Nodup) :
    l.foldl (fun m p => mapSet m (identKey p) p) m
      = m ++ l.map (fun f => (identKey f, f)) := by
  induction l generalizing m with
  | nil => simp
  | cons p rest ih =>
      simp only [List.foldl_cons]
      have hmem : identKey p ∉ mapKeys m := by
        have := List.disjoint_of_nodup_append h
        intro hc
        exact this hc (by simp)
      have hhas : mapHas m (identKey p) = false := mapHas_eq_false.mpr hmem
      rw [mapSet_of_not_has p hhas, ih]
      · simp
      · simpa [mapKeys, List.append_assoc] using h

lemma buildMap_eq (st : List FileRef) (h : (st.map identKey).Nodup) :
    buildMap st = st.map (fun f => (identKey f, f)) := by
  have := buildMap_foldl_eq st [] (by simpa [mapKeys] using h)
  simpa [buildMap] using this

lemma mapKeys_map_pair (st : List FileRef) :
    mapKeys (st.map (fun f => (identKey f, f))) = st.map identKey := by
  simp [mapKeys, List.map_map]

lemma goodEntries_mergedMap (prev l : List FileRef) :
    goodEntries (insertNewKeys (buildMap prev) (l.filter isPdf)) :=
  goodEntries_insertNewKeys _ _ (goodEntries_buildMap prev)

lemma addFiles_of_length_ne (prev l : List FileRef) (hl : ¬ l.length = 0) :
    addFiles prev l
      = (insertNewKeys (buildMap prev) (l.filter isPdf)).map (fun p => p.2) := by
  simp [addFiles, hl]

lemma nodup_keys_addFiles (prev l : List FileRef) (hl : ¬ l.length = 0) :
    ((addFiles prev l).map identKey).Nodup := by
  rw [addFiles_of_length_ne prev l hl,
    ← mapKeys_eq_of_good (goodEntries_mergedMap prev l)]
  exact nodup_keys_insertNewKeys _ _ (nodup_keys_buildMap prev)

lemma mem_key_addFiles (prev l : List FileRef) (hl : ¬ l.length = 0) :
    ∀ f ∈ l.filter isPdf, identKey f ∈ (addFiles prev l).map identKey := by
  intro f hf
  have h := mem_keys_insertNewKeys (l.filter isPdf) (buildMap prev) f hf
  rw [mapKeys_eq_of_good (goodEntries_mergedMap prev l)] at h
  rw [addFiles_of_length_ne prev l hl]
  exact h

lemma addFiles_eq_append (st l : List FileRef) (h : (st.map identKey).Nodup) :
    ∃ news : List FileRef, addFiles st l = st ++ news ∧
      ((st ++ news).map identKey).Nodup ∧
      ∀ f ∈ news, identKey f ∉ st.map identKey ∧ f ∈ l ∧ isPdf f = true := by
  by_cases hl : l.length = 0
  · refine ⟨[], by simp [addFiles, hl], by simpa using h, by intro f hf; cases hf⟩
  · rcases insertNewKeys_spec (l.filter isPdf) (st.map (fun f => (identKey f, f)))
      with ⟨ext, heq, hprop⟩
    refine ⟨ext.map (fun p => p.2), ?_, ?_, ?_⟩
    · rw [addFiles_of_length_ne st l hl, buildMap_eq st h, heq, List.map_append,
        List.map_map]
      have hid : ((fun p : String × FileRef => p.2) ∘ fun f : FileRef => (identKey f, f))
          = id := rfl
      rw [hid, List.map_id]
    · have hkeys : ((st ++ ext.map (fun p => p.2)).map identKey)
          = mapKeys (insertNewKeys (st.map (fun f => (identKey f, f))) (l.filter isPdf)) := by
        rw [heq, mapKeys_append, mapKeys_map_pair, List.map_append, List.map_map]
        congr 1
        show List.map (identKey ∘ fun p => p.2) ext = List.map (fun p => p.1) ext
        exact List.map_congr_left
          (fun p hp => by simpa [Function.comp] using ((hprop p hp).1).symm)
      rw [hkeys]
      exact nodup_keys_insertNewKeys _ _ (by rw [mapKeys_map_pair]; exact h)
    · intro f hf
      rcases List.mem_map.mp hf with ⟨p, hp, rfl⟩
      rcases hprop p hp with ⟨h1, h2, h3⟩
      rw [mapKeys_map_pair] at h3
      rw [List.mem_filter] at h2
      exact ⟨h1 ▸ h3, h2.1, h2.2⟩

lemma removeFile_sublist (prev : List FileRef) (idx : Nat) :
    (removeFile prev idx).Sublist prev := by
  have h1 : (prev.enum.filter (fun p => p.1 != idx)).Sublist prev.enum :=
    List.filter_sublist _
  have h2 := h1.map (fun p : Nat × FileRef => p.2)
  have h3 : prev.enum.map (fun p : Nat × FileRef => p.2) = prev := List.enum_map_snd prev
  rw [h3] at h2
  exact h2

lemma mem_mapSet {m : FMap} {k : String} {v : FileRef} {q : String × FileRef}
    (h : q ∈ mapSet m k v) : q ∈ m ∨ q.2 = v := by
  unfold mapSet at h
  split at h
  · rcases List.mem_map.mp h with ⟨p, hp, hq⟩
    by_cases hpk : (p.1 == k) = true
    · rw [if_pos hpk] at hq
      right
      rw [← hq]
    · rw [if_neg hpk] at hq
      left
      rw [← hq]
      exact hp
  · rcases List.mem_append.mp h with h | h
    · exact Or.inl h
    · right
      simp only [List.mem_singleton] at h
      rw [h]

lemma mem_values_buildMap_aux (prev : List FileRef) (m : FMap) :
    ∀ q ∈ prev.foldl (fun m p => mapSet m (identKey p) p) m, q ∈ m ∨ q.2 ∈ prev := by
  induction prev generalizing m with
  | nil => intro q hq; exact Or.inl hq
  | cons p rest ih =>
      intro q hq
      simp only [List.foldl_cons] at hq
      rcases ih _ q hq with h | h
      · rcases mem_mapSet h with h | h
        · exact Or.inl h
        · exact Or.inr (by rw [h]; exact List.mem_cons_self _ _)
      · exact Or.inr (List.mem_cons_of_mem _ h)

lemma mem_addFiles {prev l : List FileRef} {g : FileRef}
    (h : g ∈ addFiles prev l) : g ∈ prev ∨ (g ∈ l ∧ isPdf g = true) := by
  by_cases hl : l.length = 0
  · left
    simpa [addFiles, hl] using h
  · rw [addFiles_of_length_ne prev l hl] at h
    rcases List.mem_map.mp h with ⟨q, hq, rfl⟩
    rcases insertNewKeys_spec (l.filter isPdf) (buildMap prev) with ⟨ext, heq, hprop⟩
    rw [heq] at hq
    rcases List.mem_append.mp hq with hq | hq
    · rcases mem_values_buildMap_aux prev [] q (by simpa [buildMap] using hq) with h | h
      · cases h
      · exact Or.inl h
    · rcases hprop q hq with ⟨-, h2, -⟩
      rw [List.mem_filter] at h2
      exact Or.inr h2

lemma handleSendAll_guard (s : Session) (net : FetchResult)
    (h : s.files.length = 0 ∨ s.isUploading = true) :
    handleSendAll s net = (s, SendResult.noRequest) := by
  rcases h with h | h <;> simp [handleSendAll, h]

lemma handleSendAll_netError (s : Session) (msg : String)
    (hU : s.isUploading = false) (hF : s.files ≠ []) :
    handleSendAll s (FetchResult.netError msg)
      = ({ files := s.files, isUploading := false }, SendResult.uploadError msg) := by
  have hlen : ¬ s.files.length = 0 := by simpa [List.length_eq_zero] using hF
  simp [handleSendAll, hlen, hU]

lemma handleSendAll_httpError (s : Session) (r : HttpResponse)
    (hU : s.isUploading = false) (hF : s.files ≠ []) (hr : r.ok = false) :
    handleSendAll s (FetchResult.fetched r)
      = ({ files := s.files, isUploading := false },
          SendResult.uploadError ("Upload failed with status " ++ toString r.status)) := by
  have hlen : ¬ s.files.length = 0 := by simpa [List.length_eq_zero] using hF
  simp [handleSendAll, hlen, hU, hr]

lemma handleSendAll_ok (s : Session) (r : HttpResponse)
    (hU : s.isUploading = false) (hF : s.files ≠ []) (hok : r.ok = true) :
    handleSendAll s (FetchResult.fetched r)
      = ({ files := [], isUploading := false }, SendResult.uploaded (safeJson r)) := by
  have hlen : ¬ s.files.length = 0 := by simpa [List.length_eq_zero] using hF
  simp [handleSendAll, hlen, hU, hok]

/-! Claim theorems. -/

/-- C1: invoking submit while a submission is already in flight
(`isUploading`) or while the selection is empty performs no network
request and changes nothing, and invoking submit twice in rapid
succession while the first is still uploading issues exactly one request:
the first invocation dispatches it and the second, seeing the raised
`isUploading` flag, dispatches none and changes nothing. -/
theorem submit_concurrency_guard (s : Session) :
    ((s.isUploading = true ∨ s.files = []) →
      submitStart s = (s, false) ∧
        ∀ net, handleSendAll s net = (s, SendResult.noRequest)) ∧
    (s.isUploading = false → s.files ≠ [] →
      (submitStart s).2 = true ∧
        submitStart (submitStart s).1 = ((submitStart s).1, false)) := by
  constructor
  · rintro (h | h)
    · exact ⟨by simp [submitStart, h], fun net => by simp [handleSendAll, h]⟩
    · exact ⟨by simp [submitStart, h], fun net => by simp [handleSendAll, h]⟩
  · intro hU hF
    have hlen : ¬ s.files.length = 0 := by simpa [List.length_eq_zero] using hF
    refine ⟨by simp [submitStart, hlen, hU], ?_⟩
    simp [submitStart, hlen, hU]

theorem submit_concurrency_guard_witness :
    (submitStart ⟨[], false⟩ = (⟨[], false⟩, false)) ∧
    (submitStart ⟨[⟨"a.pdf", 1000, 111, "application/pdf"⟩], false⟩).2 = true ∧
    submitStart (submitStart ⟨[⟨"a.pdf", 1000, 111, "application/pdf"⟩], false⟩).1
      = ((submitStart ⟨[⟨"a.pdf", 1000, 111, "application/pdf"⟩], false⟩).1, false) :=
  ⟨((submit_concurrency_guard ⟨[], false⟩).1 (Or.inr rfl)).1,
    (submit_concurrency_guard ⟨[⟨"a.pdf", 1000, 111, "application/pdf"⟩], false⟩).2
      (by decide) (by decide)⟩

/-- C2: the operation `addFiles` is idempotent: merging the same incoming sequence twice
into any starting selection yields exactly the selection obtained by
merging it once, same entries in the same order. -/
theorem addFiles_idempotent (prev l : List FileRef) :
    addFiles (addFiles prev l) l = addFiles prev l := by
  by_cases hl : l.length = 0
  · simp [addFiles, hl]
  · have hnd : ((addFiles prev l).map identKey).Nodup := nodup_keys_addFiles prev l hl
    have hbm : buildMap (addFiles prev l)
        = (addFiles prev l).map (fun f => (identKey f, f)) := buildMap_eq _ hnd
    have hcov : ∀ f ∈ l.filter isPdf,
        mapHas (buildMap (addFiles prev l)) (identKey f) = true := by
      intro f hf
      rw [mapHas_iff, hbm, mapKeys_map_pair]
      exact mem_key_addFiles prev l hl f hf
    rw [addFiles_of_length_ne (addFiles prev l) l hl, insertNewKeys_of_mem _ _ hcov,
      hbm, List.map_map]
    have hid : ((fun p : String × FileRef => p.2) ∘ fun f : FileRef => (identKey f, f))
        = id := rfl
    rw [hid, List.map_id]

/-- C3: every failed submission — a network-level error or a non-success
HTTP status — leaves the selection exactly as it was, returns the session
to idle (`isUploading = false`) so the user may retry, and for a
non-success HTTP response surfaces the status code in the failure message
shown to the caller. -/
theorem failure_retains_selection (s : Session)
    (hU : s.isUploading = false) (hF : s.files ≠ []) :
    (∀ msg, handleSendAll s (FetchResult.netError msg)
        = ({ files := s.files, isUploading := false }, SendResult.uploadError msg)) ∧
    ∀ r : HttpResponse, r.ok = false →
      handleSendAll s (FetchResult.fetched r)
        = ({ files := s.files, isUploading := false },
            SendResult.uploadError ("Upload failed with status " ++ toString r.status)) :=
  ⟨fun msg => handleSendAll_netError s msg hU hF,
    fun r hr => handleSendAll_httpError s r hU hF hr⟩

theorem failure_retains_selection_witness :
    handleSendAll ⟨[⟨"a.pdf", 1000, 111, ""⟩, ⟨"b.pdf", 500, 112, ""⟩], false⟩
        (FetchResult.fetched ⟨500, none⟩)
      = (⟨[⟨"a.pdf", 1000, 111, ""⟩, ⟨"b.pdf", 500, 112, ""⟩], false⟩,
          SendResult.uploadError ("Upload failed with status " ++ toString (500 : Nat))) :=
  (failure_retains_selection ⟨[⟨"a.pdf", 1000, 111, ""⟩, ⟨"b.pdf", 500, 112, ""⟩], false⟩
      rfl (by decide)).2 ⟨500, none⟩ (by decide)

/-- C4: every submission answered with a success status code clears the
selection (it becomes empty) and returns the session to idle. -/
theorem success_clears_selection (s : Session) (r : HttpResponse)
    (hU : s.isUploading = false) (hF : s.files ≠ []) (hok : r.ok = true) :
    handleSendAll s (FetchResult.fetched r)
      = ({ files := [], isUploading := false }, SendResult.uploaded (safeJson r)) :=
  handleSendAll_ok s r hU hF hok

theorem success_clears_selection_witness :
    handleSendAll ⟨[⟨"a.pdf", 1000, 111, ""⟩, ⟨"b.pdf", 500, 112, ""⟩], false⟩
        (FetchResult.fetched ⟨200, some (Json.value "stored")⟩)
      = (⟨[], false⟩, SendResult.uploaded (safeJson ⟨200, some (Json.value "stored")⟩)) :=
  success_clears_selection ⟨[⟨"a.pdf", 1000, 111, ""⟩, ⟨"b.pdf", 500, 112, ""⟩], false⟩
    ⟨200, some (Json.value "stored")⟩ rfl (by decide) (by decide)

/-- C5: the validator accepts a file reference iff its declared type
equals the configured MIME type (`application/pdf`) or its name ends with
`.pdf` case-insensitively; `report.PDF` with no declared type is
accepted, `image.png` with no declared type is rejected, and a file can
only ever enter the selection if it was already there or passes the
validator. -/
theorem validator_filtering :
    (∀ f : FileRef, isPdf f = true ↔ (f.type = accept ∨ endsWithCI f.name ".pdf" = true)) ∧
    (∀ sz lm, isPdf ⟨"report.PDF", sz, lm, ""⟩ = true) ∧
    (∀ sz lm, isPdf ⟨"image.png", sz, lm, ""⟩ = false) ∧
    ∀ (prev l : List FileRef) (g : FileRef),
      g ∈ addFiles prev l → g ∈ prev ∨ (g ∈ l ∧ isPdf g = true) := by
  refine ⟨?_, ?_, ?_, fun prev l g h => mem_addFiles h⟩
  · intro f
    have hlow : lowerStr ".pdf" = ".pdf" := by decide
    simp [isPdf, endsWithCI, hlow]
  · intro sz lm
    show (("" : String) == accept || endsWithStr (lowerStr "report.PDF") ".pdf") = true
    decide
  · intro sz lm
    show (("" : String) == accept || endsWithStr (lowerStr "image.png") ".pdf") = false
    decide

theorem validator_filtering_witness :
    (⟨"report.PDF", 7, 1, ""⟩ : FileRef) ∈ ([] : List FileRef) ∨
      ((⟨"report.PDF", 7, 1, ""⟩ : FileRef) ∈ [(⟨"report.PDF", 7, 1, ""⟩ : FileRef)] ∧
        isPdf ⟨"report.PDF", 7, 1, ""⟩ = true) :=
  validator_filtering.2.2.2 [] [⟨"report.PDF", 7, 1, ""⟩] ⟨"report.PDF", 7, 1, ""⟩
    (by decide)

/-- C6: on a selection with pairwise distinct identity keys, `addFiles`
keeps the existing entries in place and in order, appends only entries
whose identity key was not already present, and preserves key
distinctness; `removeFile` keeps a subsequence (so the relative order of
the remaining entries) and preserves key distinctness. -/
theorem selection_invariant (st l : List FileRef) (idx : Nat)
    (h : (st.map identKey).Nodup) :
    (∃ news, addFiles st l = st ++ news ∧ ((st ++ news).map identKey).Nodup ∧
      ∀ f ∈ news, identKey f ∉ st.map identKey) ∧
    ((removeFile st idx).map identKey).Nodup ∧ (removeFile st idx).Sublist st := by
  refine ⟨?_, ?_, removeFile_sublist st idx⟩
  · rcases addFiles_eq_append st l h with ⟨news, h1, h2, h3⟩
    exact ⟨news, h1, h2, fun f hf => (h3 f hf).1⟩
  · exact List.Nodup.sublist ((removeFile_sublist st idx).map identKey) h

theorem selection_invariant_witness :
    (∃ news, addFiles [⟨"a.pdf", 1000, 111, ""⟩] [⟨"b.pdf", 500, 112, ""⟩]
        = [⟨"a.pdf", 1000, 111, ""⟩] ++ news ∧
      (([⟨"a.pdf", 1000, 111, ""⟩] ++ news).map identKey).Nodup ∧
      ∀ f ∈ news, identKey f ∉ [(⟨"a.pdf", 1000, 111, ""⟩ : FileRef)].map identKey) ∧
    ((removeFile [⟨"a.pdf", 1000, 111, ""⟩] 0).map identKey).Nodup ∧
    (removeFile [⟨"a.pdf", 1000, 111, ""⟩] 0).Sublist [⟨"a.pdf", 1000, 111, ""⟩] :=
  selection_invariant [⟨"a.pdf", 1000, 111, ""⟩] [⟨"b.pdf", 500, 112, ""⟩] 0 (by decide)

/-- C7: the multipart encoding contains exactly one part per selection
entry, each under the repeated field name `files`, in selection order;
being this unique canonical list, the encoding of a given selection is
deterministic. -/
theorem encode_one_part_per_entry (files : List FileRef) :
    encodeFormData files = files.map (fun f => ("files", f)) := by
  have h : ∀ (fs : List FileRef) (acc : List (String × FileRef)),
      fs.foldl (fun fd f => fd ++ [("files", f)]) acc
        = acc ++ fs.map (fun f => ("files", f)) := by
    intro fs
    induction fs with
    | nil => intro acc; simp
    | cons f rest ih =>
        intro acc
        simp only [List.foldl_cons, List.map_cons, ih]
        simp
  simpa [encodeFormData] using h files []

/-- C8: a success status code makes the submission succeed even when the
response body is missing or malformed: the outcome is a success with a
null payload, so the status alone decides the classification. -/
theorem success_status_decides (s : Session) (r : HttpResponse)
    (hU : s.isUploading = false) (hF : s.files ≠ []) (hok : r.ok = true)
    (hbody : r.body = none) :
    handleSendAll s (FetchResult.fetched r)
      = ({ files := [], isUploading := false }, SendResult.uploaded Json.null) := by
  have h := handleSendAll_ok s r hU hF hok
  rw [h, show safeJson r = Json.null from by rw [safeJson, hbody]]

theorem success_status_decides_witness :
    handleSendAll ⟨[⟨"a.pdf", 1000, 111, ""⟩], false⟩ (FetchResult.fetched ⟨204, none⟩)
      = (⟨[], false⟩, SendResult.uploaded Json.null) :=
  success_status_decides ⟨[⟨"a.pdf", 1000, 111, ""⟩], false⟩ ⟨204, none⟩
    rfl (by decide) (by decide) rfl

/-- C9: `totalSize` equals the sum of the sizes of the current entries on
every selection state, and is 0 on the empty selection. -/
theorem totalSize_additive :
    (∀ files : List FileRef, totalSize files = (files.map (fun f => f.size)).sum) ∧
    totalSize [] = 0 := by
  have h : ∀ (fs : List FileRef) (acc : Nat),
      fs.foldl (fun a f => a + f.size) acc = acc + (fs.map (fun f => f.size)).sum := by
    intro fs
    induction fs with
    | nil => intro acc; simp
    | cons f rest ih =>
        intro acc
        simp only [List.foldl_cons, List.map_cons, List.sum_cons, ih]
        omega
  exact ⟨fun files => by simpa [totalSize] using h files 0, rfl⟩

/-- C10: every submit invocation that starts a transfer ends with the
uploading flag reset to false whatever the network outcome — success,
HTTP failure or network failure — and the handler always returns a
result rather than propagating an exception. -/
theorem uploading_always_reset (s : Session) (net : FetchResult)
    (hU : s.isUploading = false) (hF : s.files ≠ []) :
    ((handleSendAll s net).1).isUploading = false := by
  cases net with
  | netError msg => rw [handleSendAll_netError s msg hU hF]
  | fetched r =>
      by_cases hok : r.ok = true
      · rw [handleSendAll_ok s r hU hF hok]
      · rw [handleSendAll_httpError s r hU hF (Bool.of_not_eq_true hok)]

theorem uploading_always_reset_witness :
    ((handleSendAll ⟨[⟨"a.pdf", 1000, 111, ""⟩], false⟩
        (FetchResult.netError "Failed to fetch")).1).isUploading = false :=
  uploading_always_reset ⟨[⟨"a.pdf", 1000, 111, ""⟩], false⟩
    (FetchResult.netError "Failed to fetch") rfl (by decide)
